import Mathlib

/-!
Verification of the simplesat dependency solver against its specification.

The repository's files give `simplesat/request.py` (the request / job /
adhoc-constraint data model), its solver test-suite, and the demo CLI; the
solver proper (pool, rules generation, SAT core, transaction builder) is
exercised only through its interface.  We embed `request.py` directly and
model the solver's interface functions from the specification, then prove
the stated properties.
-/

/-- Versions: opaque values with a total order per package name.  Modelled
as a list of numeric upstream components plus a build number, compared
lexicographically (enough structure to carry every version the tests use,
while the solver itself only ever compares). -/
structure Version where
  up : List Nat
  build : Nat
deriving DecidableEq, Repr

/-- Strict lexicographic order on the upstream component lists. -/
def lexNatLt : List Nat → List Nat → Bool
  | [], [] => false
  | [], _ :: _ => true
  | _ :: _, [] => false
  | a :: as, b :: bs => a < b || (a == b && lexNatLt as bs)

/-- Strict order on versions: upstream components first, then build. -/
def vlt (v w : Version) : Bool :=
  lexNatLt v.up w.up || (v.up == w.up && v.build < w.build)

/-- Non-strict order on versions. -/
def vle (v w : Version) : Bool :=
  vlt v w || v == w

/-- Constraint: one of the eight constraint kinds of the requirement
algebra (spec section 3). -/
inductive Constraint where
  | any : Constraint
  | equalTo : Version → Constraint
  | notEqualTo : Version → Constraint
  | greaterThan : Version → Constraint
  | greaterEqual : Version → Constraint
  | lessThan : Version → Constraint
  | lessEqual : Version → Constraint
  | compatibleWith : Version → Constraint
deriving DecidableEq, Repr

/-- Does version `v` satisfy constraint `c`?  `compatibleWith w` matches any
version at least `w` in the same compatibility class (same upstream
components). -/
def constraintMatches (c : Constraint) (v : Version) : Bool :=
  match c with
  | .any => true
  | .equalTo w => v == w
  | .notEqualTo w => v != w
  | .greaterThan w => vlt w v
  | .greaterEqual w => vle w v
  | .lessThan w => vlt v w
  | .lessEqual w => vle v w
  | .compatibleWith w => v.up == w.up && vle w v

/-- Requirement: a package name plus a conjunction of constraints. -/
structure Requirement where
  name : String
  constraints : List Constraint
deriving DecidableEq, Repr

/-- Package: `(name, version, install_requires, conflicts, provides)`;
identity is `(name, version)` (spec section 3). -/
structure Package where
  name : String
  version : Version
  install_requires : List Requirement
  conflicts : List Requirement
  provides : List Requirement
deriving DecidableEq, Repr

/-- Does package `p` satisfy requirement `r`?  The name must agree and the
version must satisfy every constraint. -/
def reqMatches (r : Requirement) (p : Package) : Bool :=
  r.name == p.name && r.constraints.all (fun c => constraintMatches c p.version)

/-- The identity of a package: its `(name, version)` pair. -/
def pkgId (p : Package) : String × Version :=
  (p.name, p.version)

/-- Repository: an ordered collection of packages. -/
abbrev Repository := List Package

/-! ## The request model, embedded from `simplesat/request.py` -/

/-- JobType: the enum of `request.py` (install = 1, remove = 2, update = 3). -/
inductive JobType where
  | install : JobType
  | remove : JobType
  | update : JobType
deriving DecidableEq, Repr

/-- Job: the `_Job` attrs class of `request.py`: a requirement paired with a
job type. -/
structure Job where
  requirement : Requirement
  kind : JobType
deriving DecidableEq, Repr

/-- AdhocConstraints of `request.py`: three sets of package names, each
defaulting to the empty set. -/
structure AdhocConstraints where
  allow_newer : Finset String
  allow_any : Finset String
  allow_older : Finset String
deriving DecidableEq

/-- The `targets` property of `AdhocConstraints`: the union of the three
sets. -/
def AdhocConstraints.targets (ac : AdhocConstraints) : Finset String :=
  ac.allow_newer ∪ ac.allow_any ∪ ac.allow_older

/-- Request of `request.py`: a job list plus adhoc constraints.  Python
methods mutate `self`; here each method returns the updated request. -/
structure Request where
  jobs : List Job
  adhoc_constraints : AdhocConstraints
deriving DecidableEq

/-- `Request.__init__`: empty job list and empty adhoc constraint sets. -/
def Request.new : Request :=
  { jobs := [], adhoc_constraints := ⟨∅, ∅, ∅⟩ }

/-- `Request._add_job`: append one job built from the requirement and job
type. -/
def Request.add_job (rq : Request) (r : Requirement) (t : JobType) : Request :=
  { rq with jobs := rq.jobs ++ [⟨r, t⟩] }

/-- `Request.install`. -/
def Request.install (rq : Request) (r : Requirement) : Request :=
  rq.add_job r .install

/-- `Request.remove`. -/
def Request.remove (rq : Request) (r : Requirement) : Request :=
  rq.add_job r .remove

/-- `Request.update`. -/
def Request.update (rq : Request) (r : Requirement) : Request :=
  rq.add_job r .update

/-- `Request.allow_newer`: add the name to the `allow_newer` set. -/
def Request.allow_newer (rq : Request) (n : String) : Request :=
  { rq with adhoc_constraints :=
      { rq.adhoc_constraints with
          allow_newer := insert n rq.adhoc_constraints.allow_newer } }

/-- `Request.allow_any`: add the name to the `allow_any` set. -/
def Request.allow_any (rq : Request) (n : String) : Request :=
  { rq with adhoc_constraints :=
      { rq.adhoc_constraints with
          allow_any := insert n rq.adhoc_constraints.allow_any } }

/-- `Request.allow_older`: add the name to the `allow_older` set. -/
def Request.allow_older (rq : Request) (n : String) : Request :=
  { rq with adhoc_constraints :=
      { rq.adhoc_constraints with
          allow_older := insert n rq.adhoc_constraints.allow_older } }

/-- One `install` / `remove` / `update` call, as data. -/
def Request.applyCall (rq : Request) : JobType × Requirement → Request
  | (.install, r) => rq.install r
  | (.remove, r) => rq.remove r
  | (.update, r) => rq.update r

/-- A sequence of calls applied in order. -/
def Request.applyCalls (rq : Request) (cs : List (JobType × Requirement)) : Request :=
  cs.foldl Request.applyCall rq

/-! ## The solver interface, modelled from the specification

The solver implementation (pool, rules generator, SAT core, transaction
builder) is reachable only through `simplesat.dependency_solver`; the
following definitions model it from the specification's description. -/

/-- Modelled from the spec: the pool interns every distinct package of the
given repositories (identity `(name, version)`, duplicates collapsed,
first occurrence kept; spec sections 3 and 4.C).  `seen` carries the
identities already interned. -/
def dedupByIdAux (seen : List (String × Version)) : List Package → List Package
  | [] => []
  | p :: ps =>
    if pkgId p ∈ seen then dedupByIdAux seen ps
    else p :: dedupByIdAux (pkgId p :: seen) ps

/-- Modelled from the spec: the packages of a pool built from the given
repositories, in ingestion order with duplicates by identity dropped. -/
def poolPackages (repos : List Repository) : List Package :=
  dedupByIdAux [] repos.flatten

/-- Are two packages the same package (equal identity)? -/
def sameId (p q : Package) : Bool :=
  pkgId p == pkgId q

/-- No two distinct packages of the list share a name (invariant I1). -/
def namesDistinct : List Package → Bool
  | [] => true
  | p :: ps => ps.all (fun q => p.name != q.name) && namesDistinct ps

/-- Modelled from the spec: is a job satisfied by a selection `S` of
packages, given the installed repository?  Install and update jobs need a
matching package in `S` (spec 4.D.5); a remove job forbids every installed
package matched by the requirement (unit clauses `¬id`). -/
def jobSatisfied (installed : Repository) (S : List Package) (j : Job) : Bool :=
  match j.kind with
  | .install => S.any (fun p => reqMatches j.requirement p)
  | .update => S.any (fun p => reqMatches j.requirement p)
  | .remove =>
    installed.all (fun p =>
      !reqMatches j.requirement p || !S.any (fun q => sameId p q))

/-- Modelled from the spec: a selection `S` of pool packages is a solution
when every job is satisfied, at most one package per name is selected (I1),
every selected package's `install_requires` is satisfied inside `S` (I2,
dependency rules 4.D.1), and no selected package's `conflicts` requirement
matches another selected package (I3, conflict rules 4.D.2). -/
def validSolution (installed : Repository) (jobs : List Job) (S : List Package) : Bool :=
  jobs.all (jobSatisfied installed S)
  && namesDistinct S
  && S.all (fun p =>
      p.install_requires.all (fun r => S.any (fun q => reqMatches r q)))
  && S.all (fun p =>
      p.conflicts.all (fun r =>
        S.all (fun q => sameId p q || !reqMatches r q)))

/-- Modelled from the spec: the policy steers the search toward the
already-installed state (installed bias, spec 4.D.4 and 4.F); the cost of a
selection counts the packages it installs plus the packages it removes
relative to the installed repository. -/
def changeCost (installed : Repository) (S : List Package) : Nat :=
  (S.filter (fun p => !installed.any (fun q => sameId p q))).length
    + (installed.filter (fun p => !S.any (fun q => sameId p q))).length

/-- Modelled from the spec: among the valid selections, the solver's first
satisfying assignment is the preferred one; we pick a minimal-change
selection (earliest in enumeration order on ties). -/
def pickBest (installed : Repository) : List (List Package) → Option (List Package)
  | [] => none
  | c :: cs =>
    some (cs.foldl
      (fun best s => if changeCost installed s < changeCost installed best then s else best) c)

/-- Modelled from the spec: the strict-mode check of the rules generator
(spec 4.D.1): the first package of the pool owning an `install_requires`
requirement with no candidate in the pool, with that requirement. -/
def strictCheck (pool : List Package) : Option (String × Requirement) :=
  pool.findSome? (fun p =>
    (p.install_requires.find? (fun r => !pool.any (fun q => reqMatches r q))).map
      (fun r => (p.name, r)))

/-- Does `p` depend on `q` inside the set being operated on: `q` is a
different package satisfying one of `p`'s requirements? -/
def depOn (p q : Package) : Bool :=
  pkgId p != pkgId q && p.install_requires.any (fun r => reqMatches r q)

/-- Lexicographic comparison of character lists by code point. -/
def charListLe : List Char → List Char → Bool
  | [], _ => true
  | _ :: _, [] => false
  | a :: as, b :: bs =>
    if a.toNat < b.toNat then true
    else if b.toNat < a.toNat then false
    else charListLe as bs

/-- Lexicographic comparison of strings. -/
def strLe (s t : String) : Bool :=
  charListLe s.data t.data

/-- Helper: the comparison is total. -/
theorem charListLe_total :
    ∀ as bs : List Char, charListLe as bs = true ∨ charListLe bs as = true := by
  intro as
  induction as with
  | nil =>
    intro bs
    left
    simp [charListLe]
  | cons a as ih =>
    intro bs
    cases bs with
    | nil =>
      right
      simp [charListLe]
    | cons b bs =>
      rcases Nat.lt_trichotomy a.toNat b.toNat with h | h | h
      · left
        simp [charListLe, h]
      · rcases ih bs with h' | h'
        · left
          simp only [charListLe]
          rw [if_neg (by omega), if_neg (by omega)]
          exact h'
        · right
          simp only [charListLe]
          rw [if_neg (by omega), if_neg (by omega)]
          exact h'
      · right
        simp [charListLe, h]

/-- Helper: the comparison is transitive. -/
theorem charListLe_trans :
    ∀ as bs cs : List Char, charListLe as bs = true → charListLe bs cs = true →
      charListLe as cs = true := by
  intro as
  induction as with
  | nil =>
    intro bs cs h1 h2
    simp [charListLe]
  | cons a as ih =>
    intro bs cs h1 h2
    cases bs with
    | nil => simp [charListLe] at h1
    | cons b bs =>
      cases cs with
      | nil => simp [charListLe] at h2
      | cons c cs =>
        simp only [charListLe] at h1 h2 ⊢
        by_cases hab : a.toNat < b.toNat
        · by_cases hbc : b.toNat < c.toNat
          · rw [if_pos (by omega)]
          · by_cases hcb : c.toNat < b.toNat
            · rw [if_neg hbc, if_pos hcb] at h2
              exact absurd h2 (by simp)
            · rw [if_pos (by omega)]
        · by_cases hba : b.toNat < a.toNat
          · rw [if_neg hab, if_pos hba] at h1
            exact absurd h1 (by simp)
          · rw [if_neg hab, if_neg hba] at h1
            by_cases hbc : b.toNat < c.toNat
            · rw [if_pos (by omega)]
            · by_cases hcb : c.toNat < b.toNat
              · rw [if_neg hbc, if_pos hcb] at h2
                exact absurd h2 (by simp)
              · rw [if_neg hbc, if_neg hcb] at h2
                rw [if_neg (by omega), if_neg (by omega)]
                exact ih bs cs h1 h2

/-- Name order on packages, for tie-breaking at equal topological rank. -/
def nameLe (p q : Package) : Prop :=
  strLe p.name q.name = true

instance : DecidableRel nameLe :=
  fun p q => inferInstanceAs (Decidable (strLe p.name q.name = true))

instance : IsTotal Package nameLe :=
  ⟨fun p q => charListLe_total p.name.data q.name.data⟩

instance : IsTrans Package nameLe :=
  ⟨fun _ _ _ h h' => charListLe_trans _ _ _ h h'⟩

/-- Sort a topological layer lexicographically by package name. -/
def sortByName (ps : List Package) : List Package :=
  ps.insertionSort nameLe

/-- The packages of `ps` whose requirements no package of `ps` satisfies:
the next topological layer. -/
def readyOf (ps : List Package) : List Package :=
  ps.filter (fun p => !ps.any (fun q => depOn p q))

/-- The packages of `ps` still depending on another package of `ps`. -/
def restOf (ps : List Package) : List Package :=
  ps.filter (fun p => ps.any (fun q => depOn p q))

/-- Modelled from the spec: the dependency-topological layers of a package
set (spec 4.G): each layer holds the packages depending on nothing that
remains, sorted by name; `none` when the dependency relation has no
topological order (a cycle) or the fuel runs out. -/
def topoLayers : Nat → List Package → Option (List (List Package))
  | _, [] => some []
  | 0, _ :: _ => none
  | fuel + 1, p :: ps =>
    let ready := readyOf (p :: ps)
    if ready.isEmpty then none
    else (topoLayers fuel (restOf (p :: ps))).map (fun ls => sortByName ready :: ls)

/-- The flat dependency-topological order, when one exists. -/
def topoFlat (ps : List Package) : Option (List Package) :=
  (topoLayers ps.length ps).map List.flatten

/-- Modelled from the spec: the order of install operations — topological
with same-rank ties broken by name; a cyclic set falls back to plain name
order. -/
def installOrder (ps : List Package) : List Package :=
  match topoFlat ps with
  | some out => out
  | none => sortByName ps

/-- Operation: an entry of a transaction's operation list; `update` appears
only in the pretty view. -/
inductive Operation where
  | install : Package → Operation
  | remove : Package → Operation
  | update : Package → Package → Operation
deriving DecidableEq, Repr

/-- Transaction: the ordered raw operation list (spec section 6). -/
structure Transaction where
  operations : List Operation
deriving DecidableEq, Repr

/-- Modelled from the spec: `pretty_operations` collapses same-name
`(Remove(old), Install(new))` pairs into `Update(new, old)` (spec 4.G). -/
def collapseOps (ops : List Operation) : List Operation :=
  ops.filterMap (fun op =>
    match op with
    | .remove p =>
      if ops.any (fun o => match o with
          | .install q => q.name == p.name
          | _ => false)
      then none else some (.remove p)
    | .install p =>
      match ops.findSome? (fun o => match o with
          | .remove q => if q.name == p.name then some q else none
          | _ => none) with
      | some old => some (.update p old)
      | none => some (.install p)
    | o => some o)

/-- The pretty view of a transaction. -/
def Transaction.pretty_operations (t : Transaction) : List Operation :=
  collapseOps t.operations

/-- Modelled from the spec: the pruner's root set — selected packages
matched by an install or update job requirement (spec 4.H). -/
def pruneRoots (jobs : List Job) (S : List Package) : List Package :=
  S.filter (fun p => jobs.any (fun j =>
    match j.kind with
    | .remove => false
    | _ => reqMatches j.requirement p))

/-- One expansion step of reachability along `install_requires` inside `S`. -/
def reachStep (S reach : List Package) : List Package :=
  reach ++ S.filter (fun q =>
    !reach.any (fun p => sameId p q)
    && reach.any (fun p => p.install_requires.any (fun r => reqMatches r q)))

/-- Reachability closure with fuel. -/
def reachClosure : Nat → List Package → List Package → List Package
  | 0, _, reach => reach
  | fuel + 1, S, reach => reachClosure fuel S (reachStep S reach)

/-- Modelled from the spec: the pruner keeps the install operations for
packages reachable from the job roots; removes are never pruned (spec 4.H). -/
def pruneInstalls (jobs : List Job) (S toInst : List Package) : List Package :=
  let reach := reachClosure S.length S (pruneRoots jobs S)
  toInst.filter (fun p => reach.any (fun q => sameId p q))

/-- Modelled from the spec: the transaction builder (spec 4.G): diff the
selection against the installed repository, order installs topologically
(name order inside a rank) and removes in reverse topological order,
removes first. -/
def buildTransaction (installed : Repository) (jobs : List Job)
    (S : List Package) (usePruning : Bool) : Transaction :=
  let toInst := S.filter (fun p => !installed.any (fun q => sameId p q))
  let toInst := if usePruning then pruneInstalls jobs S toInst else toInst
  let toRem := installed.filter (fun p => !S.any (fun q => sameId p q))
  { operations :=
      (installOrder toRem).reverse.map .remove
        ++ (installOrder toInst).map .install }

/-- SolveError: the failure kinds of the solver API (spec section 6). -/
inductive SolveError where
  | satisfiabilityError : SolveError
  | missingInstallRequires : String → Requirement → SolveError
deriving DecidableEq, Repr

/-- Modelled from the spec: the chosen selection of a solve — the preferred
valid selection of pool packages, if any. -/
def chosenSolution (remote : List Repository) (installed : Repository)
    (rq : Request) : Option (List Package) :=
  let pool := poolPackages (remote ++ [installed])
  pickBest installed (pool.sublists.filter (validSolution installed rq.jobs))

/-- Modelled from the spec: `solve(pool, remote_repos, installed_repo,
request, {use_pruning, strict})` (spec section 6).  Strict mode fails with
`MissingInstallRequires` during rule generation, before the search; an
unsatisfiable request fails with `SatisfiabilityError`; otherwise the
transaction diffs the chosen selection against the installed state. -/
def solve (remote : List Repository) (installed : Repository) (rq : Request)
    (strict usePruning : Bool) : Except SolveError Transaction :=
  let pool := poolPackages (remote ++ [installed])
  match (if strict then strictCheck pool else none) with
  | some (n, r) => .error (.missingInstallRequires n r)
  | none =>
    match chosenSolution remote installed rq with
    | none => .error .satisfiabilityError
    | some S => .ok (buildTransaction installed rq.jobs S usePruning)

/-- Modelled from the spec: a request holding exactly the given
requirements as install jobs, in order. -/
def installRequest (reqs : List Requirement) : Request :=
  { jobs := reqs.map (fun r => ⟨r, .install⟩), adhoc_constraints := ⟨∅, ∅, ∅⟩ }

/-- Modelled from the spec: `requirements_are_satisfiable(repos, reqs)` —
whether the requirements admit a valid selection from the pool of the
repositories with nothing installed (spec section 6, property P4). -/
def requirements_are_satisfiable (repos : List Repository)
    (reqs : List Requirement) : Bool :=
  (poolPackages repos).sublists.any
    (validSolution [] (installRequest reqs).jobs)

/-- Modelled from the spec: `requirements_from_repository(repo)` — one
exact-version requirement per package of the repository, in order
(spec section 6). -/
def requirements_from_repository (repo : Repository) : List Requirement :=
  repo.map (fun p => ⟨p.name, [.equalTo p.version]⟩)

/-- Modelled from the spec: `repository_from_requirements(repos, reqs)` —
the projection of the repositories onto the packages matching at least one
of the requirements (spec section 6). -/
def repository_from_requirements (repos : List Repository)
    (reqs : List Requirement) : Repository :=
  repos.flatten.filter (fun p => reqs.any (fun r => reqMatches r p))

/-- Modelled from the spec: `repository_is_consistent(repo)` — every
package's `install_requires` is satisfiable from within the repository
(spec section 6). -/
def repository_is_consistent (repo : Repository) : Bool :=
  repo.all (fun p =>
    p.install_requires.all (fun r => repo.any (fun q => reqMatches r q)))

/-! ## Concrete scenario data (from the spec's literal scenarios and the
test-suite) -/

/-- Shorthand for building a version value. -/
def mkVersion (up : List Nat) (b : Nat) : Version :=
  ⟨up, b⟩

/-- Shorthand for a package with dependencies and no conflicts/provides. -/
def mkPackage (n : String) (ver : Version) (deps : List Requirement) : Package :=
  ⟨n, ver, deps, [], []⟩

/-- A requirement on a name with no version constraint. -/
def anyReq (n : String) : Requirement :=
  ⟨n, [.any]⟩

/-- mkl 10.3-1. -/
def mkl_10_3_1 : Package := mkPackage "mkl" (mkVersion [10, 3] 1) []

/-- mkl 10.3-2. -/
def mkl_10_3_2 : Package := mkPackage "mkl" (mkVersion [10, 3] 2) []

/-- libgfortran 3.0.0-2. -/
def libgfortran_3_0_0_2 : Package := mkPackage "libgfortran" (mkVersion [3, 0, 0] 2) []

/-- numpy 1.9.2-1 depending on mkl == 10.3-1 and libgfortran ^= 3.0.0. -/
def numpy_1_9_2_1 : Package :=
  mkPackage "numpy" (mkVersion [1, 9, 2] 1)
    [⟨"mkl", [.equalTo (mkVersion [10, 3] 1)]⟩,
     ⟨"libgfortran", [.compatibleWith (mkVersion [3, 0, 0] 0)]⟩]

/-- MKL 10.3-1 depending on the absent package MISSING. -/
def mklDependsMissing : Package :=
  mkPackage "MKL" (mkVersion [10, 3] 1) [anyReq "MISSING"]

/-- numpy 1.9.2-1 with no dependencies. -/
def numpyPlain_1_9_2 : Package := mkPackage "numpy" (mkVersion [1, 9, 2] 1) []

/-- numpy 2.0.0-1 depending on MKL. -/
def numpyDependsMKL : Package :=
  mkPackage "numpy" (mkVersion [2, 0, 0] 1) [anyReq "MKL"]

/-- numpy 2.0.0-1 depending on the absent package missing. -/
def numpyDependsAbsent : Package :=
  mkPackage "numpy" (mkVersion [2, 0, 0] 1) [anyReq "missing"]

/-- MKL 10.3-1. -/
def MKL_10_3_1 : Package := mkPackage "MKL" (mkVersion [10, 3] 1) []

/-- numpy 1.9.2-1 depending on libgfortran ^= 3.0.0 and MKL == 10.3-1. -/
def numpyDepsBoth : Package :=
  mkPackage "numpy" (mkVersion [1, 9, 2] 1)
    [⟨"libgfortran", [.compatibleWith (mkVersion [3, 0, 0] 0)]⟩,
     ⟨"MKL", [.equalTo (mkVersion [10, 3] 1)]⟩]

/-- numpy 2.0.0-1 depending on the absent package nonexistent. -/
def numpyDependsNonexistent : Package :=
  mkPackage "numpy" (mkVersion [2, 0, 0] 1) [anyReq "nonexistent"]

/-- numpy 1.8.1-1 depending on MKL == 10.3-1. -/
def numpy_1_8_1_1 : Package :=
  mkPackage "numpy" (mkVersion [1, 8, 1] 1) [⟨"MKL", [.equalTo (mkVersion [10, 3] 1)]⟩]

/-- Did a solve succeed (no exception raised)? -/
def solveSucceeds (e : Except SolveError Transaction) : Bool :=
  match e with
  | .ok _ => true
  | .error _ => false

/-! ## Theorems -/

/-- Helper: applying a call sequence appends the corresponding jobs. -/
theorem applyCalls_jobs (cs : List (JobType × Requirement)) :
    ∀ rq : Request,
      (rq.applyCalls cs).jobs = rq.jobs ++ cs.map (fun c => ⟨c.2, c.1⟩) := by
  induction cs with
  | nil => intro rq; simp [Request.applyCalls]
  | cons c cs ih =>
    intro rq
    have h1 : (rq.applyCall c).jobs = rq.jobs ++ [⟨c.2, c.1⟩] := by
      rcases c with ⟨t, r⟩
      cases t <;>
        simp [Request.applyCall, Request.install, Request.remove,
          Request.update, Request.add_job]
    calc (rq.applyCalls (c :: cs)).jobs
        = ((rq.applyCall c).applyCalls cs).jobs := by
          simp [Request.applyCalls, List.foldl_cons]
      _ = (rq.applyCall c).jobs ++ cs.map (fun c => ⟨c.2, c.1⟩) := ih _
      _ = rq.jobs ++ (c :: cs).map (fun c => ⟨c.2, c.1⟩) := by
          simp [h1]

/-- Claim C9: a fresh `Request` has an empty job list and empty adhoc
constraint sets; each of `install`, `remove`, `update` appends exactly one
job (the requirement paired with the matching `JobType`) at the end of
`jobs`, leaving the previous jobs unchanged; hence after any sequence of
calls `jobs` lists the requirements in call order. -/
theorem c9_request_jobs_append :
    (Request.new.jobs = [] ∧ Request.new.adhoc_constraints = ⟨∅, ∅, ∅⟩)
    ∧ (∀ (rq : Request) (r : Requirement),
        (rq.install r).jobs = rq.jobs ++ [⟨r, .install⟩]
        ∧ (rq.remove r).jobs = rq.jobs ++ [⟨r, .remove⟩]
        ∧ (rq.update r).jobs = rq.jobs ++ [⟨r, .update⟩])
    ∧ (∀ cs : List (JobType × Requirement),
        (Request.new.applyCalls cs).jobs = cs.map (fun c => ⟨c.2, c.1⟩)) := by
  refine ⟨⟨rfl, rfl⟩, ?_, ?_⟩
  · intro rq r
    exact ⟨rfl, rfl, rfl⟩
  · intro cs
    simp [applyCalls_jobs, Request.new]

/-- Claim C10: `AdhocConstraints.targets` is always the union of
`allow_newer`, `allow_any` and `allow_older`, and the three sets are not
kept disjoint: calling two different `allow_*` methods with the same name
on one request leaves the name in both corresponding sets. -/
theorem c10_adhoc_targets_union :
    (∀ ac : AdhocConstraints,
        ac.targets = ac.allow_newer ∪ ac.allow_any ∪ ac.allow_older)
    ∧ (∀ (rq : Request) (n : String),
        (n ∈ ((rq.allow_newer n).allow_any n).adhoc_constraints.allow_newer
          ∧ n ∈ ((rq.allow_newer n).allow_any n).adhoc_constraints.allow_any)
        ∧ (n ∈ ((rq.allow_newer n).allow_older n).adhoc_constraints.allow_newer
          ∧ n ∈ ((rq.allow_newer n).allow_older n).adhoc_constraints.allow_older)
        ∧ (n ∈ ((rq.allow_any n).allow_older n).adhoc_constraints.allow_any
          ∧ n ∈ ((rq.allow_any n).allow_older n).adhoc_constraints.allow_older)) := by
  constructor
  · intro ac; rfl
  · intro rq n
    refine ⟨⟨?_, ?_⟩, ⟨?_, ?_⟩, ⟨?_, ?_⟩⟩ <;>
      simp [Request.allow_newer, Request.allow_any, Request.allow_older]

/-! ## The claims -/

/-- Claim C2: with repository mkl 10.3-1 and mkl 10.3-2, mkl 10.3-1
installed, and request install `mkl > 10.3-1`, solve returns the operation
list `[Remove(mkl 10.3-1), Install(mkl 10.3-2)]`, and the pretty view of
that transaction collapses the same-name pair into the single operation
`Update(mkl 10.3-2, mkl 10.3-1)`. -/
theorem c2_update_operations :
    solve [[mkl_10_3_1, mkl_10_3_2], [mkl_10_3_1]] [mkl_10_3_1]
        (Request.new.install ⟨"mkl", [.greaterThan (mkVersion [10, 3] 1)]⟩)
        false false
      = .ok ⟨[.remove mkl_10_3_1, .install mkl_10_3_2]⟩
    ∧ Transaction.pretty_operations ⟨[.remove mkl_10_3_1, .install mkl_10_3_2]⟩
      = [.update mkl_10_3_2 mkl_10_3_1] := by
  exact ⟨rfl, rfl⟩

/-- Claim C3: in non-strict mode a request whose candidates all depend —
directly or transitively — on a requirement with no candidate is
unsatisfiable: whenever no selection of pool packages is a valid solution,
solve returns `SatisfiabilityError`; in particular for the repository
`MKL depends(MISSING), numpy 2.0.0 depends(MKL), numpy 1.9.2` with request
install `numpy >= 2.0` (missing transitive dependency), and likewise for
the direct missing dependency variant. -/
theorem c3_missing_dependency_unsat :
    (∀ (remote : List Repository) (installed : Repository) (rq : Request)
        (up : Bool),
      (poolPackages (remote ++ [installed])).sublists.all
          (fun S => !validSolution installed rq.jobs S) = true →
      solve remote installed rq false up = .error .satisfiabilityError)
    ∧ solve [[mklDependsMissing, numpyPlain_1_9_2, numpyDependsMKL]] []
        (Request.new.install ⟨"numpy", [.greaterEqual (mkVersion [2, 0] 0)]⟩)
        false false
      = .error .satisfiabilityError
    ∧ solve [[numpyPlain_1_9_2, numpyDependsAbsent]] []
        (Request.new.install ⟨"numpy", [.greaterEqual (mkVersion [2, 0] 0)]⟩)
        false false
      = .error .satisfiabilityError := by
  refine ⟨?_, rfl, rfl⟩
  intro remote installed rq up h
  have hnil : (poolPackages (remote ++ [installed])).sublists.filter
      (validSolution installed rq.jobs) = [] := by
    rw [List.filter_eq_nil_iff]
    intro S hS
    have := (List.all_eq_true.mp h) S hS
    simp only [Bool.not_eq_true'] at this
    simp [this]
  simp [solve, chosenSolution, hnil, pickBest]

/-- Claim C4: in strict mode, when some pool package has an
`install_requires` requirement matched by no candidate, solve fails with
`MissingInstallRequires` during rule generation — for every request, before
any search — naming the offending package and requirement; in particular
for the repository of the strict test with request install
`numpy == 2.0.0-1`. -/
theorem c4_strict_missing_install_requires :
    (∀ (remote : List Repository) (installed : Repository) (rq : Request)
        (up : Bool) (n : String) (r : Requirement),
      strictCheck (poolPackages (remote ++ [installed])) = some (n, r) →
      solve remote installed rq true up = .error (.missingInstallRequires n r))
    ∧ solve [[MKL_10_3_1, libgfortran_3_0_0_2, numpyDepsBoth, numpyDependsNonexistent]] []
        (Request.new.install ⟨"numpy", [.equalTo (mkVersion [2, 0, 0] 1)]⟩)
        true false
      = .error (.missingInstallRequires "numpy" (anyReq "nonexistent")) := by
  refine ⟨?_, rfl⟩
  intro remote installed rq up n r h
  simp [solve, h]

/-- Claim C6: `repository_from_requirements` is idempotent: applied to the
repository it produced, with the same requirements, it yields the same
repository. -/
theorem c6_repository_from_requirements_idempotent :
    ∀ (repos : List Repository) (reqs : List Requirement),
      repository_from_requirements [repository_from_requirements repos reqs] reqs
        = repository_from_requirements repos reqs := by
  intro repos reqs
  have h : ∀ (l : List Package) (p : Package → Bool),
      (l.filter p).filter p = l.filter p := by
    intro l p
    simp [List.filter_filter]
  simp only [repository_from_requirements, List.flatten_cons, List.flatten_nil,
    List.append_nil]
  exact h _ _

/-- Claim C7: `requirements_from_repository` returns exactly one
exact-version requirement (name, version equality) per package of the
repository, in the repository's order, and is unchanged when every
package's dependency metadata is replaced. -/
theorem c7_requirements_from_repository_exact :
    ∀ repo : Repository,
      (requirements_from_repository repo).length = repo.length
      ∧ (∀ i : Nat,
          (requirements_from_repository repo)[i]?
            = repo[i]?.map (fun p => ⟨p.name, [.equalTo p.version]⟩))
      ∧ (∀ f : Package → List Requirement,
          requirements_from_repository
              (repo.map (fun p => { p with install_requires := f p }))
            = requirements_from_repository repo) := by
  intro repo
  refine ⟨by simp [requirements_from_repository], ?_, ?_⟩
  · intro i
    simp [requirements_from_repository]
  · intro f
    simp [requirements_from_repository]

/-- Claim C8: `repository_is_consistent` is true exactly when every
package's `install_requires` requirements each have a matching package in
the same repository; the repository holding only numpy 1.8.1-1 depending
on MKL == 10.3-1 is inconsistent, and adding MKL 10.3-1 makes it
consistent. -/
theorem c8_repository_is_consistent_iff :
    (∀ repo : Repository,
      repository_is_consistent repo = true
        ↔ ∀ p ∈ repo, ∀ r ∈ p.install_requires, ∃ q ∈ repo, reqMatches r q = true)
    ∧ repository_is_consistent [numpy_1_8_1_1] = false
    ∧ repository_is_consistent [MKL_10_3_1, numpy_1_8_1_1] = true := by
  refine ⟨?_, rfl, rfl⟩
  intro repo
  simp [repository_is_consistent, List.all_eq_true, List.any_eq_true]

/-- Helper: `pickBest` returns nothing exactly on an empty candidate list. -/
theorem pickBest_eq_none_iff (inst : Repository) (l : List (List Package)) :
    pickBest inst l = none ↔ l = [] := by
  cases l <;> simp [pickBest]

/-- Claim C1: `requirements_are_satisfiable(R, reqs)` is true exactly when
`solve` on a fresh request holding those requirements as install jobs does
not raise. -/
theorem c1_satisfiable_iff_solve_ok :
    ∀ (repos : List Repository) (reqs : List Requirement),
      requirements_are_satisfiable repos reqs = true
        ↔ solveSucceeds (solve repos [] (installRequest reqs) false true) = true := by
  intro repos reqs
  have hpool : poolPackages (repos ++ [[]]) = poolPackages repos := by
    simp [poolPackages]
  simp only [solve, chosenSolution, hpool, requirements_are_satisfiable,
    if_neg Bool.false_ne_true]
  cases hp : pickBest [] ((poolPackages repos).sublists.filter
      (validSolution [] (installRequest reqs).jobs)) with
  | none =>
    have hl : (poolPackages repos).sublists.filter
        (validSolution [] (installRequest reqs).jobs) = [] :=
      (pickBest_eq_none_iff _ _).mp hp
    have hv := List.filter_eq_nil_iff.mp hl
    simp only [solveSucceeds, List.any_eq_true]
    constructor
    · rintro ⟨S, hS, hval⟩
      exact absurd hval (hv S hS)
    · intro h
      exact absurd h (by simp)
  | some S =>
    simp only [solveSucceeds, iff_true]
    rcases hl : (poolPackages repos).sublists.filter
        (validSolution [] (installRequest reqs).jobs) with _ | ⟨c, cs⟩
    · rw [hl] at hp
      simp [pickBest] at hp
    · have hc : c ∈ (poolPackages repos).sublists.filter
          (validSolution [] (installRequest reqs).jobs) := by
        rw [hl]
        exact List.mem_cons_self c cs
      have hm := List.mem_filter.mp hc
      exact List.any_eq_true.mpr ⟨c, hm.1, hm.2⟩

/-- Helper: membership in the ready layer. -/
theorem mem_readyOf {ps : List Package} {a : Package} :
    a ∈ readyOf ps ↔ a ∈ ps ∧ ∀ q ∈ ps, depOn a q = false := by
  simp [readyOf, List.mem_filter, List.any_eq_false]

/-- Helper: membership in the remaining set. -/
theorem mem_restOf {ps : List Package} {a : Package} :
    a ∈ restOf ps ↔ a ∈ ps ∧ ∃ q ∈ ps, depOn a q = true := by
  simp [restOf, List.mem_filter, List.any_eq_true]

/-- Helper: every package of the set is ready or remains. -/
theorem mem_ready_or_rest {ps : List Package} {a : Package} (h : a ∈ ps) :
    a ∈ readyOf ps ∨ a ∈ restOf ps := by
  by_cases hc : ps.any (fun q => depOn a q) = true
  · right
    exact List.mem_filter.mpr ⟨h, hc⟩
  · left
    refine List.mem_filter.mpr ⟨h, ?_⟩
    simp only [Bool.not_eq_true] at hc
    simp [hc]

/-- Helper: the flattened topological layers hold exactly the input set. -/
theorem topoLayers_mem :
    ∀ (fuel : Nat) (ps : List Package) (ls : List (List Package)),
      topoLayers fuel ps = some ls → ∀ a, a ∈ ls.flatten ↔ a ∈ ps := by
  intro fuel
  induction fuel with
  | zero =>
    intro ps ls h a
    cases ps with
    | nil =>
      simp only [topoLayers, Option.some.injEq] at h
      subst h
      simp
    | cons p ps' => exact absurd h (by simp [topoLayers])
  | succ fuel ih =>
    intro ps ls h a
    cases ps with
    | nil =>
      simp only [topoLayers, Option.some.injEq] at h
      subst h
      simp
    | cons p ps' =>
      simp only [topoLayers] at h
      by_cases hr : (readyOf (p :: ps')).isEmpty
      · rw [if_pos hr] at h
        exact absurd h (by simp)
      · rw [if_neg hr] at h
        rcases Option.map_eq_some'.mp h with ⟨ls', hls', rfl⟩
        simp only [List.flatten_cons, List.mem_append, sortByName,
          List.mem_insertionSort]
        constructor
        · rintro (hready | hflat)
          · exact (mem_readyOf.mp hready).1
          · exact (mem_restOf.mp ((ih _ _ hls' a).mp hflat)).1
        · intro hmem
          rcases mem_ready_or_rest hmem with hready | hrest
          · exact Or.inl hready
          · exact Or.inr ((ih _ _ hls' a).mpr hrest)

/-- Helper: the flattened topological layers respect the dependency order:
an earlier package never depends on a later one. -/
theorem topoLayers_pairwise :
    ∀ (fuel : Nat) (ps : List Package) (ls : List (List Package)),
      topoLayers fuel ps = some ls →
      List.Pairwise (fun a b => depOn a b = false) ls.flatten := by
  intro fuel
  induction fuel with
  | zero =>
    intro ps ls h
    cases ps with
    | nil =>
      simp only [topoLayers, Option.some.injEq] at h
      subst h
      simp
    | cons p ps' => exact absurd h (by simp [topoLayers])
  | succ fuel ih =>
    intro ps ls h
    cases ps with
    | nil =>
      simp only [topoLayers, Option.some.injEq] at h
      subst h
      simp
    | cons p ps' =>
      simp only [topoLayers] at h
      by_cases hr : (readyOf (p :: ps')).isEmpty
      · rw [if_pos hr] at h
        exact absurd h (by simp)
      · rw [if_neg hr] at h
        rcases Option.map_eq_some'.mp h with ⟨ls', hls', rfl⟩
        simp only [List.flatten_cons]
        rw [List.pairwise_append]
        refine ⟨?_, ih _ _ hls', ?_⟩
        · refine List.pairwise_of_forall_mem_list ?_
          intro a ha b hb
          have ha' := mem_readyOf.mp ((List.mem_insertionSort nameLe).mp ha)
          have hb' := mem_readyOf.mp ((List.mem_insertionSort nameLe).mp hb)
          exact ha'.2 b hb'.1
        · intro a ha b hb
          have ha' := mem_readyOf.mp ((List.mem_insertionSort nameLe).mp ha)
          have hb' := mem_restOf.mp ((topoLayers_mem _ _ _ hls' b).mp hb)
          exact ha'.2 b hb'.1

/-- Helper: every topological layer is sorted by package name. -/
theorem topoLayers_sorted :
    ∀ (fuel : Nat) (ps : List Package) (ls : List (List Package)),
      topoLayers fuel ps = some ls → ∀ l ∈ ls, l.Sorted nameLe := by
  intro fuel
  induction fuel with
  | zero =>
    intro ps ls h l hl
    cases ps with
    | nil =>
      simp only [topoLayers, Option.some.injEq] at h
      subst h
      exact absurd hl (by simp)
    | cons p ps' => exact absurd h (by simp [topoLayers])
  | succ fuel ih =>
    intro ps ls h l hl
    cases ps with
    | nil =>
      simp only [topoLayers, Option.some.injEq] at h
      subst h
      exact absurd hl (by simp)
    | cons p ps' =>
      simp only [topoLayers] at h
      by_cases hr : (readyOf (p :: ps')).isEmpty
      · rw [if_pos hr] at h
        exact absurd h (by simp)
      · rw [if_neg hr] at h
        rcases Option.map_eq_some'.mp h with ⟨ls', hls', rfl⟩
        rcases List.mem_cons.mp hl with rfl | hl'
        · exact List.sorted_insertionSort nameLe _
        · exact ih _ _ hls' l hl'

/-- Claim C5: install operations are emitted in dependency-topological
order — whenever the dependency relation on the installed set admits a
topological order, the flat order never places a package before one of its
dependencies and mentions exactly the packages being installed, each
topological layer is sorted lexicographically by name, and every
transaction solve returns is the transaction built on the chosen selection
(whose installs follow that order); installing mkl and libgfortran yields
`[Install(libgfortran), Install(mkl)]`, and installing numpy (depending on
both) lists them before `Install(numpy)`. -/
theorem c5_install_order_topological :
    (∀ (ps out : List Package), topoFlat ps = some out →
      List.Pairwise (fun a b => depOn a b = false) out ∧ ∀ a, a ∈ out ↔ a ∈ ps)
    ∧ (∀ (ps : List Package) (ls : List (List Package)),
        topoLayers ps.length ps = some ls → ∀ l ∈ ls, l.Sorted nameLe)
    ∧ (∀ (remote : List Repository) (installed : Repository) (rq : Request)
        (strict up : Bool) (t : Transaction),
        solve remote installed rq strict up = .ok t →
        ∃ S, chosenSolution remote installed rq = some S
          ∧ t = buildTransaction installed rq.jobs S up)
    ∧ solve [[mkl_10_3_1, libgfortran_3_0_0_2]] []
        ((Request.new.install (anyReq "mkl")).install (anyReq "libgfortran"))
        false false
      = .ok ⟨[.install libgfortran_3_0_0_2, .install mkl_10_3_1]⟩
    ∧ solve [[mkl_10_3_1, libgfortran_3_0_0_2, numpy_1_9_2_1]] []
        (Request.new.install (anyReq "numpy")) false false
      = .ok ⟨[.install libgfortran_3_0_0_2, .install mkl_10_3_1,
          .install numpy_1_9_2_1]⟩ := by
  refine ⟨?_, ?_, ?_, by rfl, by rfl⟩
  · intro ps out h
    rcases Option.map_eq_some'.mp h with ⟨ls, hls, rfl⟩
    exact ⟨topoLayers_pairwise _ _ _ hls, topoLayers_mem _ _ _ hls⟩
  · intro ps ls h
    exact topoLayers_sorted _ _ _ h
  · intro remote installed rq strict up t h
    cases hsc : (if strict
        then strictCheck (poolPackages (remote ++ [installed])) else none) with
    | some nr =>
      obtain ⟨n, r⟩ := nr
      simp only [solve, hsc] at h
      exact Except.noConfusion h
    | none =>
      cases hch : chosenSolution remote installed rq with
      | none =>
        simp only [solve, hsc, hch] at h
        exact Except.noConfusion h
      | some S =>
        simp only [solve, hsc, hch] at h
        cases h
        exact ⟨S, rfl, rfl⟩
